import Mathlib

/-!
Verification of the tinyurl URL-shortening service.

The embedding below models the request handlers of `src/setup-db.js`
(the Express application) together with the `links` table of
`src/database/schema.sql`.  The database table is a list of `Link`
records; each SQL statement of the handlers is translated into the
corresponding pure list operation.  Timestamps are logical clocks
(`Nat`) passed explicitly to each mutating operation, and the
`Math.random()` calls of `generateShortCode` are an explicit source of
choices (`Rnd`).
-/

namespace TinyLink

/-- A JSON value as it appears in an HTTP response body (only the
shapes the service produces: strings, numbers and null). -/
inductive JVal
  | jstr (s : String)
  | jnum (n : Nat)
  | jnull
deriving DecidableEq

/-- A response row: an association list of column names to JSON values,
in the order of the SQL column list that produced it. -/
abbrev Row := List (String × JVal)

/-- One row of the `links` table of `src/database/schema.sql`:
`short_code VARCHAR(10) UNIQUE NOT NULL`, `original_url TEXT NOT NULL`,
`clicks INTEGER DEFAULT 0`, `last_clicked_at TIMESTAMP` (nullable),
`created_at TIMESTAMP DEFAULT CURRENT_TIMESTAMP`.  The `id SERIAL`
column is never read by any handler and is represented by the position
in the list. -/
structure Link where
  short_code : String
  original_url : String
  clicks : Nat
  last_clicked_at : Option Nat
  created_at : Nat
deriving DecidableEq

/-- The database: the rows of the `links` table in insertion order. -/
abbrev Db := List Link

/-- Row produced by
`SELECT short_code, original_url, clicks, last_clicked_at, created_at`
(used by `GET /api/links/:code` and `GET /api/links`). -/
def rowOfLink (l : Link) : Row :=
  [("short_code", .jstr l.short_code),
   ("original_url", .jstr l.original_url),
   ("clicks", .jnum l.clicks),
   ("last_clicked_at", match l.last_clicked_at with
     | none => .jnull
     | some t => .jnum t),
   ("created_at", .jnum l.created_at)]

/-- Row produced by the create handler's
`INSERT ... RETURNING short_code, original_url, clicks, created_at`
(note: `last_clicked_at` is not in the RETURNING list). -/
def rowOfCreate (l : Link) : Row :=
  [("short_code", .jstr l.short_code),
   ("original_url", .jstr l.original_url),
   ("clicks", .jnum l.clicks),
   ("created_at", .jnum l.created_at)]

/-! ### Code generator and validator (`src/setup-db.js` lines 397-406, 330-336) -/

/-- The 62-character alphabet of `generateShortCode`:
`'ABCDEFGHIJKLMNOPQRSTUVWXYZabcdefghijklmnopqrstuvwxyz0123456789'`. -/
def alph : List Char :=
  "ABCDEFGHIJKLMNOPQRSTUVWXYZabcdefghijklmnopqrstuvwxyz0123456789".toList

/-- The random choices consumed by one call of `generateShortCode`:
`lenR` models `Math.floor(Math.random() * 3)` and `charR i` models the
`Math.floor(Math.random() * chars.length)` of loop iteration `i`. -/
structure Rnd where
  lenR : Fin 3
  charR : Nat → Fin 62

/-- One character pick: `chars.charAt(Math.floor(Math.random() * chars.length))`. -/
def alphChar (j : Fin 62) : Char := alph.getD j.val 'A'

/-- `generateShortCode()`: a string of `Math.floor(Math.random()*3) + 6`
characters, each picked from `alph`. -/
def generateShortCode (r : Rnd) : String :=
  ⟨(List.range (r.lenR.val + 6)).map (fun i => alphChar (r.charR i))⟩

/-- A character matching `[A-Za-z0-9]`. -/
def isAlnumCh (ch : Char) : Bool := ch.isAlpha || ch.isDigit

/-- The custom-code regular expression of the create handler:
`/^[A-Za-z0-9]\x7b6,8\x7d$/.test(shortCode)`. -/
def validCode (s : String) : Bool :=
  decide (6 ≤ s.length) && decide (s.length ≤ 8) && s.toList.all isAlnumCh

/-! ### URL validation

The create handler calls `validator.isURL(url, \x7b require_protocol: true \x7d)`
from the third-party `validator` npm package, whose source is not part
of this repository. -/

/-- Split a character list at the first occurrence of `sep`, if any. -/
def splitFirst (sep : Char) : List Char → Option (List Char × List Char)
  | [] => none
  | ch :: rest =>
    if ch == sep then some ([], rest)
    else (splitFirst sep rest).map (fun p => (ch :: p.1, p.2))

/-- Split a character list at every occurrence of `sep`. -/
def splitAll (sep : Char) : List Char → List (List Char)
  | [] => [[]]
  | ch :: rest =>
    match splitAll sep rest with
    | [] => [[]]
    | grp :: grps => if ch == sep then [] :: grp :: grps else (ch :: grp) :: grps

/-- Split at the first occurrence of the three-character separator `://`. -/
def splitProtoSep : List Char → Option (List Char × List Char)
  | [] => none
  | ':' :: '/' :: '/' :: rest => some ([], rest)
  | ch :: rest => (splitProtoSep rest).map (fun p => (ch :: p.1, p.2))

/-- The prefix of `l` strictly before the first occurrence of `sep`
(all of `l` when `sep` does not occur): models `l.split(sep).shift()`. -/
def beforeChar (sep : Char) (l : List Char) : List Char :=
  l.takeWhile (fun ch => ch != sep)

/-- Numeric value of a digit string (as `parseInt` on an all-digit string). -/
def digitsToNat (l : List Char) : Nat :=
  l.foldl (fun acc ch => acc * 10 + (ch.toNat - 48)) 0

/-- One label of a host name, per the FQDN part rule (ASCII): nonempty,
at most 63 characters, alphanumeric or hyphen, no leading or trailing
hyphen, no underscore. -/
def hostPartOk (p : List Char) : Bool :=
  !p.isEmpty && decide (p.length ≤ 63) && p.all (fun ch => isAlnumCh ch || ch == '-')
    && p.headD ' ' != '-' && p.getLastD ' ' != '-'

/-- Modelled from the spec: the fully-qualified-domain-name check of the
`validator` package (ASCII fragment): at least two dot-separated labels,
each satisfying `hostPartOk`, and a top-level domain of at least two
letters. -/
def isFQDNish (host : List Char) : Bool :=
  let parts := splitAll '.' host
  decide (2 ≤ parts.length) && parts.all hostPartOk &&
    (match parts.getLast? with
     | none => false
     | some tld => decide (2 ≤ tld.length) && tld.all Char.isAlpha)

/-- Modelled from the spec: the IPv4 check of the `validator` package:
four dot-separated decimal octets, each 0-255 without leading zeros. -/
def isIPv4ish (host : List Char) : Bool :=
  let parts := splitAll '.' host
  decide (parts.length = 4) && parts.all (fun p =>
    !p.isEmpty && p.all Char.isDigit && decide (digitsToNat p ≤ 255)
      && (p.headD ' ' != '0' || decide (p.length = 1)))

/-- Port check after the first `:` of the host part: an empty port
string is skipped, otherwise it must be all digits with value 1-65535. -/
def portOk (p : List Char) : Bool :=
  p.isEmpty || (p.all Char.isDigit && decide (1 ≤ digitsToNat p) && decide (digitsToNat p ≤ 65535))

/-- Host and optional port: everything before the first `:` must be a
valid FQDN or IPv4 address, everything after it a valid port. -/
def hostPortOk (hp : List Char) : Bool :=
  match splitFirst ':' hp with
  | none => isFQDNish hp || isIPv4ish hp
  | some (host, port) => (isFQDNish host || isIPv4ish host) && portOk port

/-- Modelled from the spec: the destination-URL check
`validator.isURL(url, \x7b require_protocol: true \x7d)` of the third-party
`validator` npm package, whose source is not part of this repository.
A destination must be a syntactically valid absolute URL with an
explicit scheme: no whitespace or angle brackets, no `mailto:`, a
protocol among http/https/ftp before `://`, and a well-formed
host (FQDN or IPv4) with an optional valid port, optional userinfo,
path, query and fragment. -/
def isURL (url : String) : Bool :=
  let l := url.toList
  if l.isEmpty then false
  else if l.any (fun ch => ch.isWhitespace || ch == '<' || ch == '>') then false
  else if l.take 7 == "mailto:".toList then false
  else
    let noFrag := beforeChar '#' l
    let noQuery := beforeChar '?' noFrag
    match splitProtoSep noQuery with
    | none => false
    | some (proto, rest) =>
      if !(proto.map Char.toLower == "http".toList
            || proto.map Char.toLower == "https".toList
            || proto.map Char.toLower == "ftp".toList) then false
      else if rest.isEmpty then false
      else
        let hostport := beforeChar '/' rest
        match splitFirst '@' hostport with
        | none => hostPortOk hostport
        | some (auth, rest') => !auth.isEmpty && hostPortOk rest'

/-! ### The request handlers of `src/setup-db.js` -/

/-- The reserved first path segments skipped by the redirect handler:
`['api', 'healthz', 'code', 'public']`. -/
def reservedPaths : List String := ["api", "healthz", "code", "public"]

/-- ASCII lower-casing of a string, modelling
`code.toLowerCase()` in the redirect handler. -/
def lowerStr (s : String) : String := ⟨s.toList.map Char.toLower⟩

/-- The rows returned by `SELECT ... FROM links WHERE short_code = $1`. -/
def rowsFor (db : Db) (c : String) : List Link :=
  db.filter (fun l => l.short_code == c)

/-- The effect of
`UPDATE links SET clicks = clicks + 1, last_clicked_at = CURRENT_TIMESTAMP WHERE short_code = $1`
on one row. -/
def bump (c : String) (now : Nat) (l : Link) : Link :=
  if l.short_code == c then
    { l with clicks := l.clicks + 1, last_clicked_at := some now }
  else l

/-- Result of the redirect handler `GET /:code`. -/
inductive RedirectResult
  | redirected (url : String)
  | home
  | notFound
deriving DecidableEq

/-- The redirect handler `GET /:code` (`src/setup-db.js` lines 248-278):
skip reserved paths (redirect to `/`), look the code up (404 when
absent), otherwise increment `clicks`, set `last_clicked_at`, and issue
a 302 redirect to the stored `original_url`. -/
def redirectLink (db : Db) (c : String) (now : Nat) : RedirectResult × Db :=
  if reservedPaths.contains (lowerStr c) then (.home, db)
  else
    match rowsFor db c with
    | [] => (.notFound, db)
    | l :: _ => (.redirected l.original_url, db.map (bump c now))

/-- Sequential redirect calls at the given sequence of times. -/
def redirectSeq (db : Db) (c : String) : List Nat → List RedirectResult × Db
  | [] => ([], db)
  | t :: ts =>
    let r1 := redirectLink db c t
    let rs := redirectSeq r1.2 c ts
    (r1.1 :: rs.1, rs.2)

/-- The last element of a list of call times, or `base` when there was
no call. -/
def lastOr (base : Option Nat) : List Nat → Option Nat
  | [] => base
  | t :: ts => lastOr (some t) ts

/-- Result of the stats handler `GET /api/links/:code`. -/
inductive GetResult
  | found (row : Row)
  | notFound
deriving DecidableEq

/-- The stats handler `GET /api/links/:code` (lines 296-314): select the
five columns for the code, 404 when no row matches. -/
def getLink (db : Db) (c : String) : GetResult :=
  match rowsFor db c with
  | [] => .notFound
  | l :: _ => .found (rowOfLink l)

/-- Result of the create handler `POST /api/links`. -/
inductive CreateResult
  | created (row : Row)
  | invalidUrl
  | invalidCode
  | conflict
deriving DecidableEq

/-- A freshly inserted row: `INSERT INTO links (short_code, original_url)`
with `clicks` defaulting to 0, `last_clicked_at` to null and
`created_at` to the current timestamp. -/
def newLink (code url : String) (now : Nat) : Link :=
  { short_code := code, original_url := url, clicks := 0,
    last_clicked_at := none, created_at := now }

/-- The existence check and insert of the create handler: 409 when a
row with the code already exists, otherwise append the new row and
return the RETURNING columns. -/
def insertLink (db : Db) (code url : String) (now : Nat) : CreateResult × Db :=
  if rowsFor db code = [] then
    (.created (rowOfCreate (newLink code url now)), db ++ [newLink code url now])
  else (.conflict, db)

/-- The create handler `POST /api/links` (lines 317-360): reject a
missing or invalid URL (400); take the custom code when truthy
(JavaScript: `undefined`, `null` and `""` are all falsy, hence
`customCode.getD ""` followed by the emptiness test), generating a code
otherwise; reject an invalid custom code (400); then check-and-insert. -/
def createLink (db : Db) (url : String) (customCode : Option String) (r : Rnd)
    (now : Nat) : CreateResult × Db :=
  if url = "" then (.invalidUrl, db)
  else if isURL url = false then (.invalidUrl, db)
  else if customCode.getD "" = "" then insertLink db (generateShortCode r) url now
  else if validCode (customCode.getD "") = false then (.invalidCode, db)
  else insertLink db (customCode.getD "") url now

/-- Result of the delete handler `DELETE /api/links/:code`. -/
inductive DeleteResult
  | deleted
  | notFound
deriving DecidableEq

/-- The delete handler `DELETE /api/links/:code` (lines 363-381):
`DELETE FROM links WHERE short_code = $1 RETURNING short_code`; 404
when no row was deleted. -/
def deleteLink (db : Db) (c : String) : DeleteResult × Db :=
  if rowsFor db c = [] then (.notFound, db)
  else (.deleted, db.filter (fun l => l.short_code != c))

/-- Newest-first order of `GET /api/links`: `ORDER BY created_at DESC`. -/
def createdDesc (a b : Link) : Prop := b.created_at ≤ a.created_at

instance : DecidableRel createdDesc := fun _ _ => Nat.decLe _ _

instance : IsTotal Link createdDesc := ⟨fun _ _ => Nat.le_total _ _⟩

instance : IsTrans Link createdDesc := ⟨fun _ _ _ h1 h2 => Nat.le_trans h2 h1⟩

/-- The rows of `SELECT ... FROM links ORDER BY created_at DESC`. -/
def listLinksSorted (db : Db) : List Link := List.insertionSort createdDesc db

/-- The list handler `GET /api/links` (lines 283-293): all rows,
newest first. -/
def listLinks (db : Db) : List Row := (listLinksSorted db).map rowOfLink

/-! ### Fine-grained store actions for the concurrency claim

Each redirect call performs two separate SQL statements: the `SELECT`
and then the single-statement atomic `UPDATE links SET clicks = clicks + 1,
last_clicked_at = CURRENT_TIMESTAMP WHERE short_code = $1`.  A concurrent
execution of several calls is an interleaving of their statements. -/

/-- One atomic database statement issued by the redirect handler. -/
inductive DbAct
  | sel (c : String)
  | upd (c : String) (t : Nat)
deriving DecidableEq

/-- Effect of one statement on the table: the `SELECT` reads only, the
`UPDATE` increments and stamps every matching row in one atomic step. -/
def execAct (db : Db) : DbAct → Db
  | .sel _ => db
  | .upd c t => db.map (bump c t)

/-- Run a schedule of statements in order. -/
def execActs (db : Db) (acts : List DbAct) : Db := acts.foldl execAct db

/-- Whether a statement is the click-increment `UPDATE` for code `c`. -/
def isUpdOn (c : String) (a : DbAct) : Bool :=
  match a with
  | .upd c2 _ => c2 == c
  | _ => false

/-- The statements issued by one successful redirect call for code `c`
whose `UPDATE` runs at time `t`. -/
def redirectCallActs (c : String) (t : Nat) : List DbAct := [.sel c, .upd c t]

/-! ### The operations, for the store invariants claim -/

/-- One invocation of any of the five handlers. -/
inductive Op
  | createOp (url : String) (customCode : Option String) (r : Rnd) (now : Nat)
  | redirectOp (c : String) (now : Nat)
  | getOp (c : String)
  | listOp
  | deleteOp (c : String)

/-- The state of the `links` table after one handler invocation
(the read-only handlers leave it unchanged). -/
def applyOp (db : Db) : Op → Db
  | .createOp url customCode r now => (createLink db url customCode r now).2
  | .redirectOp c now => (redirectLink db c now).2
  | .getOp _ => db
  | .listOp => db
  | .deleteOp c => (deleteLink db c).2

/-- The clicks counter of the first row matching `c`, if any. -/
def clicksOf (db : Db) (c : String) : Option Nat :=
  match rowsFor db c with
  | [] => none
  | l :: _ => some l.clicks

/-- Whether the operation is a successful redirect of code `c` (the only
operation that mutates a clicks counter): a redirect call for `c` that
is not intercepted as a reserved path and finds the code in the table. -/
def opBumps (db : Db) (op : Op) (c : String) : Bool :=
  match op with
  | .redirectOp c2 _ =>
    c2 == c && !reservedPaths.contains (lowerStr c2) && !(rowsFor db c2).isEmpty
  | _ => false

/-- The live short codes, in table order. -/
def codes (db : Db) : List String := db.map Link.short_code

/-- A fixed source of random choices used for concrete instances:
always the first length (6) and the first alphabet character. -/
def cRnd : Rnd := ⟨0, fun _ => 0⟩

/-- The `('docs', 'https://docs.example.com')` sample row inserted by
`src/database/schema.sql`. -/
def docsLink : Link :=
  { short_code := "docs", original_url := "https://docs.example.com",
    clicks := 0, last_clicked_at := none, created_at := 0 }

/-! ### Helper lemmas -/

theorem bump_short_code (c : String) (t : Nat) (l : Link) :
    (bump c t l).short_code = l.short_code := by
  unfold bump; split <;> rfl

theorem rowsFor_map_bump (db : Db) (c c2 : String) (t : Nat) :
    rowsFor (db.map (bump c2 t)) c = (rowsFor db c).map (bump c2 t) := by
  induction db with
  | nil => rfl
  | cons x xs ih =>
    simp only [List.map_cons, rowsFor, List.filter_cons] at ih ⊢
    rw [bump_short_code]
    by_cases h : (x.short_code == c) = true
    · simp only [h, if_pos, List.map_cons]
      exact congrArg _ ih
    · simp only [h, if_neg, Bool.false_eq_true, not_false_eq_true]
      exact ih

theorem rowsFor_append (db1 db2 : Db) (c : String) :
    rowsFor (db1 ++ db2) c = rowsFor db1 c ++ rowsFor db2 c :=
  List.filter_append _ _

theorem rowsFor_single_code {db : Db} {c : String} {l : Link} {rest : List Link}
    (h : rowsFor db c = l :: rest) : l.short_code = c := by
  have hm : l ∈ rowsFor db c := by rw [h]; exact List.mem_cons_self _ _
  have := (List.mem_filter.mp hm).2
  exact eq_of_beq this

theorem rowsFor_eq_nil {db : Db} {c : String} (h : rowsFor db c = []) :
    ∀ l ∈ db, l.short_code ≠ c := by
  intro l hl he
  have : l ∈ rowsFor db c := List.mem_filter.mpr ⟨hl, by rw [he]; exact beq_self_eq_true c⟩
  rw [h] at this
  exact (List.not_mem_nil l) this

theorem rowsFor_erase_self (db : Db) (c : String) :
    rowsFor (db.filter (fun l => l.short_code != c)) c = [] := by
  unfold rowsFor
  rw [List.filter_filter]
  have hp : (fun (l : Link) => (l.short_code == c) && (l.short_code != c)) =
      fun _ => false := by
    funext l
    simp [bne]
  rw [hp]
  simp

theorem rowsFor_erase_other {c c2 : String} (db : Db) (hne : c ≠ c2) :
    rowsFor (db.filter (fun l => l.short_code != c2)) c = rowsFor db c := by
  unfold rowsFor
  rw [List.filter_filter]
  have hp : (fun (l : Link) => (l.short_code == c) && (l.short_code != c2)) =
      fun (l : Link) => l.short_code == c := by
    funext l
    by_cases h : l.short_code = c
    · subst h
      simp [bne, hne]
    · simp [h]
  rw [hp]

theorem isURL_empty : isURL "" = false := by decide

theorem validCode_ne_empty {c : String} (h : validCode c = true) : c ≠ "" := by
  intro he
  subst he
  exact absurd h (by decide)

theorem alphChar_mem (j : Fin 62) : alphChar j ∈ alph := by
  revert j
  decide

theorem alphChar_alnum (j : Fin 62) : isAlnumCh (alphChar j) = true := by
  revert j
  decide

theorem generateShortCode_length (r : Rnd) :
    (generateShortCode r).length = r.lenR.val + 6 := by
  show ((List.range (r.lenR.val + 6)).map (fun i => alphChar (r.charR i))).length = _
  rw [List.length_map, List.length_range]

theorem generateShortCode_toList (r : Rnd) :
    (generateShortCode r).toList =
      (List.range (r.lenR.val + 6)).map (fun i => alphChar (r.charR i)) := rfl

theorem validCode_generateShortCode (r : Rnd) :
    validCode (generateShortCode r) = true := by
  unfold validCode
  rw [generateShortCode_length, generateShortCode_toList]
  have h3 := r.lenR.isLt
  simp only [Bool.and_eq_true, decide_eq_true_eq, List.all_eq_true]
  refine ⟨⟨by omega, by omega⟩, ?_⟩
  intro ch hch
  rcases List.mem_map.mp hch with ⟨i, _, rfl⟩
  exact alphChar_alnum _

theorem createLink_custom {db : Db} {url c : String} {r : Rnd} {now : Nat}
    (hurl : isURL url = true) (hc : validCode c = true) :
    createLink db url (some c) r now = insertLink db c url now := by
  have hne : url ≠ "" := by
    intro he
    rw [he, isURL_empty] at hurl
    exact Bool.false_ne_true hurl
  unfold createLink
  rw [if_neg hne, if_neg (by simp [hurl])]
  rw [if_neg (show ¬((some c).getD "" = "") from validCode_ne_empty hc),
    if_neg (show ¬(validCode ((some c).getD "") = false) by simp [show (some c).getD "" = c from rfl, hc])]
  rfl

theorem createLink_gen {db : Db} {url : String} {r : Rnd} {now : Nat}
    (hurl : isURL url = true) :
    createLink db url none r now = insertLink db (generateShortCode r) url now := by
  have hne : url ≠ "" := by
    intro he
    rw [he, isURL_empty] at hurl
    exact Bool.false_ne_true hurl
  unfold createLink
  rw [if_neg hne, if_neg (by simp [hurl]), if_pos (show (none : Option String).getD "" = "" from rfl)]

theorem insertLink_fresh {db : Db} {code url : String} {now : Nat}
    (h : rowsFor db code = []) :
    insertLink db code url now =
      (.created (rowOfCreate (newLink code url now)), db ++ [newLink code url now]) := by
  unfold insertLink
  rw [if_pos h]

theorem insertLink_conflict {db : Db} {code url : String} {now : Nat}
    (h : rowsFor db code ≠ []) :
    insertLink db code url now = (.conflict, db) := by
  unfold insertLink
  rw [if_neg h]

theorem bump_eq_of_code {c : String} {t : Nat} {l : Link} (h : l.short_code = c) :
    bump c t l = { l with clicks := l.clicks + 1, last_clicked_at := some t } := by
  unfold bump
  rw [if_pos (by rw [h]; exact beq_self_eq_true c)]

theorem bool_ne_true {b : Bool} (h : b = false) : ¬(b = true) := by
  rw [h]
  exact fun he => Bool.noConfusion he

theorem redirectLink_ok {db : Db} {c : String} {l : Link} {rest : List Link} (t : Nat)
    (hres : reservedPaths.contains (lowerStr c) = false)
    (hrow : rowsFor db c = l :: rest) :
    redirectLink db c t = (.redirected l.original_url, db.map (bump c t)) := by
  unfold redirectLink
  rw [if_neg (bool_ne_true hres), hrow]

theorem lastOr_concat (base : Option Nat) (ts : List Nat) (t : Nat) :
    lastOr base (ts ++ [t]) = some t := by
  induction ts generalizing base with
  | nil => rfl
  | cons u ts ih => exact ih (some u)

theorem redirectSeq_ok {c : String} (hres : reservedPaths.contains (lowerStr c) = false)
    (ts : List Nat) :
    ∀ (db : Db) (l : Link), rowsFor db c = [l] →
      (redirectSeq db c ts).1 =
        List.replicate ts.length (RedirectResult.redirected l.original_url) ∧
      rowsFor (redirectSeq db c ts).2 c =
        [{ l with clicks := l.clicks + ts.length,
                  last_clicked_at := lastOr l.last_clicked_at ts }] := by
  induction ts with
  | nil =>
    intro db l hrow
    refine ⟨rfl, ?_⟩
    rw [show (redirectSeq db c []).2 = db from rfl, hrow]
    rfl
  | cons t ts ih =>
    intro db l hrow
    have hcode : l.short_code = c := rowsFor_single_code hrow
    have h1 := redirectLink_ok t hres hrow
    have hrow2 : rowsFor (db.map (bump c t)) c =
        [{ l with clicks := l.clicks + 1, last_clicked_at := some t }] := by
      rw [rowsFor_map_bump, hrow, List.map_cons, List.map_nil, bump_eq_of_code hcode]
    obtain ⟨ihres, ihrow⟩ := ih (db.map (bump c t)) _ hrow2
    constructor
    · show (redirectLink db c t).1 :: (redirectSeq (redirectLink db c t).2 c ts).1 = _
      rw [h1, List.length_cons, List.replicate_succ]
      exact congrArg _ ihres
    · show rowsFor (redirectSeq (redirectLink db c t).2 c ts).2 c = _
      rw [h1]
      show rowsFor (redirectSeq (db.map (bump c t)) c ts).2 c = _
      rw [ihrow]
      have hn : l.clicks + 1 + ts.length = l.clicks + (t :: ts).length := by
        rw [List.length_cons]; omega
      rw [hn]
      rfl

theorem execActs_clicks (c : String) :
    ∀ (acts : List DbAct) (db : Db) (l : Link), rowsFor db c = [l] →
      ∃ last2, rowsFor (execActs db acts) c =
        [{ l with clicks := l.clicks + acts.countP (isUpdOn c),
                  last_clicked_at := last2 }] := by
  intro acts
  induction acts with
  | nil =>
    intro db l hrow
    refine ⟨l.last_clicked_at, ?_⟩
    show rowsFor db c = _
    rw [hrow, List.countP_nil]
    rfl
  | cons a acts ih =>
    intro db l hrow
    have hcode : l.short_code = c := rowsFor_single_code hrow
    cases a with
    | sel c2 =>
      obtain ⟨last2, h⟩ := ih db l hrow
      refine ⟨last2, ?_⟩
      show rowsFor (execActs db acts) c = _
      rw [h, List.countP_cons_of_neg _ _ (bool_ne_true rfl)]
    | upd c2 t =>
      have hrow2 : rowsFor (db.map (bump c2 t)) c = [bump c2 t l] := by
        rw [rowsFor_map_bump, hrow]
        rfl
      by_cases h2 : (c2 == c) = true
      · have hceq : c2 = c := eq_of_beq h2
        have hb : bump c2 t l = { l with clicks := l.clicks + 1, last_clicked_at := some t } := by
          rw [hceq]
          exact bump_eq_of_code hcode
        rw [hb] at hrow2
        obtain ⟨last2, h⟩ := ih _ _ hrow2
        refine ⟨last2, ?_⟩
        show rowsFor (execActs (db.map (bump c2 t)) acts) c = _
        rw [h, List.countP_cons_of_pos _ _ (show isUpdOn c (DbAct.upd c2 t) = true from h2)]
        have hn : l.clicks + 1 + acts.countP (isUpdOn c) =
            l.clicks + (acts.countP (isUpdOn c) + 1) := by omega
        rw [hn]
      · have hb : bump c2 t l = l := by
          unfold bump
          rw [if_neg]
          rw [hcode]
          intro he
          exact h2 (by rw [← eq_of_beq he]; exact beq_self_eq_true c)
        rw [hb] at hrow2
        obtain ⟨last2, h⟩ := ih _ _ hrow2
        refine ⟨last2, ?_⟩
        show rowsFor (execActs (db.map (bump c2 t)) acts) c = _
        rw [h, List.countP_cons_of_neg _ _ (show ¬(isUpdOn c (DbAct.upd c2 t) = true) from h2)]

theorem countP_upd_join (c : String) (times : List Nat) :
    ((times.map (redirectCallActs c)).flatten).countP (isUpdOn c) = times.length := by
  induction times with
  | nil => rfl
  | cons t ts ih =>
    show (redirectCallActs c t ++ (ts.map (redirectCallActs c)).flatten).countP (isUpdOn c) = _
    rw [List.countP_append, ih]
    have hone : List.countP (isUpdOn c) (redirectCallActs c t) = 1 := by
      show List.countP (isUpdOn c) [DbAct.sel c, DbAct.upd c t] = 1
      rw [List.countP_cons_of_neg _ _ (bool_ne_true rfl),
        List.countP_cons_of_pos _ _ (show isUpdOn c (DbAct.upd c t) = true from beq_self_eq_true c),
        List.countP_nil]
    rw [hone, List.length_cons]
    omega

theorem createLink_cases (db : Db) (url : String) (ccode : Option String) (rr : Rnd)
    (nn : Nat) :
    (createLink db url ccode rr nn).2 = db ∨
    ∃ code, rowsFor db code = [] ∧
      createLink db url ccode rr nn =
        (.created (rowOfCreate (newLink code url nn)), db ++ [newLink code url nn]) := by
  unfold createLink
  by_cases h1 : url = ""
  · rw [if_pos h1]
    exact Or.inl rfl
  rw [if_neg h1]
  by_cases h2 : isURL url = false
  · rw [if_pos h2]
    exact Or.inl rfl
  rw [if_neg h2]
  by_cases h3 : ccode.getD "" = ""
  · rw [if_pos h3]
    by_cases h4 : rowsFor db (generateShortCode rr) = []
    · rw [insertLink_fresh h4]
      exact Or.inr ⟨generateShortCode rr, h4, rfl⟩
    · rw [insertLink_conflict h4]
      exact Or.inl rfl
  rw [if_neg h3]
  by_cases h5 : validCode (ccode.getD "") = false
  · rw [if_pos h5]
    exact Or.inl rfl
  rw [if_neg h5]
  by_cases h6 : rowsFor db (ccode.getD "") = []
  · rw [insertLink_fresh h6]
    exact Or.inr ⟨ccode.getD "", h6, rfl⟩
  · rw [insertLink_conflict h6]
    exact Or.inl rfl

theorem nodup_codes_append {db : Db} {l2 : Link} (hnd : (codes db).Nodup)
    (hfresh : rowsFor db l2.short_code = []) : (codes (db ++ [l2])).Nodup := by
  unfold codes
  rw [List.map_append]
  refine List.Nodup.append hnd (List.nodup_singleton _) ?_
  intro a ha hb
  rcases List.mem_map.mp ha with ⟨x, hx, rfl⟩
  have hne := rowsFor_eq_nil hfresh x hx
  rw [List.map_singleton, List.mem_singleton] at hb
  exact hne hb

theorem clicksOf_append_of_some {db : Db} {c : String} {m : Nat} (l2 : Link)
    (h : clicksOf db c = some m) : clicksOf (db ++ [l2]) c = some m := by
  unfold clicksOf at h ⊢
  rw [rowsFor_append]
  cases hr : rowsFor db c with
  | nil =>
    rw [hr] at h
    exact Option.noConfusion h
  | cons x xs =>
    rw [hr] at h
    exact h

theorem contains_eq_false_of_ne_true {b : Bool} (h : ¬(b = true)) : b = false := by
  cases hb : b with
  | false => rfl
  | true => exact absurd hb h

/-! ### Claim theorems -/

/-- C7: every operation (Create, Redirect, GetStats, ListAll, Delete)
preserves the store invariants: short codes stay unique across all live
links, and each (surviving) link's clicks counter — a `Nat`, hence
non-negative — never decreases and changes only under a successful
redirect of that code, by exactly +1. -/
theorem c7_invariants (db : Db) (op : Op) (hnd : (codes db).Nodup) :
    (codes (applyOp db op)).Nodup ∧
    ∀ c m0 m1, clicksOf db c = some m0 → clicksOf (applyOp db op) c = some m1 →
      m0 ≤ m1 ∧ m1 = (if opBumps db op c then m0 + 1 else m0) := by
  cases op with
  | getOp c2 =>
    have ha : applyOp db (Op.getOp c2) = db := rfl
    rw [ha]
    refine ⟨hnd, fun c m0 m1 h0 h1 => ?_⟩
    rw [h0] at h1
    obtain rfl := Option.some.inj h1
    exact ⟨Nat.le_refl _, rfl⟩
  | listOp =>
    have ha : applyOp db Op.listOp = db := rfl
    rw [ha]
    refine ⟨hnd, fun c m0 m1 h0 h1 => ?_⟩
    rw [h0] at h1
    obtain rfl := Option.some.inj h1
    exact ⟨Nat.le_refl _, rfl⟩
  | createOp url ccode rr nn =>
    rcases createLink_cases db url ccode rr nn with h | ⟨code, hfresh, hcr⟩
    · have ha : applyOp db (Op.createOp url ccode rr nn) = db := h
      rw [ha]
      refine ⟨hnd, fun c m0 m1 h0 h1 => ?_⟩
      rw [h0] at h1
      obtain rfl := Option.some.inj h1
      exact ⟨Nat.le_refl _, rfl⟩
    · have ha : applyOp db (Op.createOp url ccode rr nn) = db ++ [newLink code url nn] := by
        show (createLink db url ccode rr nn).2 = _
        rw [hcr]
      rw [ha]
      refine ⟨nodup_codes_append hnd hfresh, fun c m0 m1 h0 h1 => ?_⟩
      rw [clicksOf_append_of_some _ h0] at h1
      obtain rfl := Option.some.inj h1
      exact ⟨Nat.le_refl _, rfl⟩
  | deleteOp c2 =>
    cases hr : rowsFor db c2 with
    | nil =>
      have ha : applyOp db (Op.deleteOp c2) = db := by
        show (deleteLink db c2).2 = db
        unfold deleteLink
        rw [if_pos hr]
      rw [ha]
      refine ⟨hnd, fun c m0 m1 h0 h1 => ?_⟩
      rw [h0] at h1
      obtain rfl := Option.some.inj h1
      exact ⟨Nat.le_refl _, rfl⟩
    | cons x xs =>
      have ha : applyOp db (Op.deleteOp c2) = db.filter (fun l => l.short_code != c2) := by
        show (deleteLink db c2).2 = _
        unfold deleteLink
        rw [if_neg (by rw [hr]; exact List.cons_ne_nil x xs)]
      rw [ha]
      constructor
      · exact List.Nodup.sublist ((List.filter_sublist db).map Link.short_code) hnd
      · intro c m0 m1 h0 h1
        by_cases hcc : c = c2
        · subst hcc
          unfold clicksOf at h1
          rw [rowsFor_erase_self] at h1
          exact Option.noConfusion h1
        · unfold clicksOf at h1
          rw [rowsFor_erase_other db hcc] at h1
          unfold clicksOf at h0
          rw [h0] at h1
          obtain rfl := Option.some.inj h1
          exact ⟨Nat.le_refl _, rfl⟩
  | redirectOp c2 t =>
    by_cases hres : reservedPaths.contains (lowerStr c2) = true
    · have ha : applyOp db (Op.redirectOp c2 t) = db := by
        show (redirectLink db c2 t).2 = db
        unfold redirectLink
        rw [if_pos hres]
      have hob : ∀ c, opBumps db (Op.redirectOp c2 t) c = false := by
        intro c
        show (c2 == c && !reservedPaths.contains (lowerStr c2) && !(rowsFor db c2).isEmpty) = false
        rw [hres]
        simp
      rw [ha]
      refine ⟨hnd, fun c m0 m1 h0 h1 => ?_⟩
      rw [h0] at h1
      obtain rfl := Option.some.inj h1
      rw [hob c]
      exact ⟨Nat.le_refl _, rfl⟩
    · have hres2 : reservedPaths.contains (lowerStr c2) = false :=
        contains_eq_false_of_ne_true hres
      cases hr : rowsFor db c2 with
      | nil =>
        have ha : applyOp db (Op.redirectOp c2 t) = db := by
          show (redirectLink db c2 t).2 = db
          unfold redirectLink
          rw [if_neg hres, hr]
        have hob : ∀ c, opBumps db (Op.redirectOp c2 t) c = false := by
          intro c
          show (c2 == c && !reservedPaths.contains (lowerStr c2) && !(rowsFor db c2).isEmpty) = false
          rw [hr]
          simp
        rw [ha]
        refine ⟨hnd, fun c m0 m1 h0 h1 => ?_⟩
        rw [h0] at h1
        obtain rfl := Option.some.inj h1
        rw [hob c]
        exact ⟨Nat.le_refl _, rfl⟩
      | cons x xs =>
        have ha : applyOp db (Op.redirectOp c2 t) = db.map (bump c2 t) := by
          show (redirectLink db c2 t).2 = _
          unfold redirectLink
          rw [if_neg hres, hr]
        have hnd2 : (codes (db.map (bump c2 t))).Nodup := by
          unfold codes
          rw [List.map_map]
          have he : (Link.short_code ∘ bump c2 t) = Link.short_code := by
            funext y
            exact bump_short_code c2 t y
          rw [he]
          exact hnd
        rw [ha]
        refine ⟨hnd2, fun c m0 m1 h0 h1 => ?_⟩
        unfold clicksOf at h0 h1
        rw [rowsFor_map_bump] at h1
        cases hrc : rowsFor db c with
        | nil =>
          rw [hrc] at h0
          exact Option.noConfusion h0
        | cons y ys =>
          rw [hrc] at h0 h1
          obtain rfl := Option.some.inj h0
          have hycode : y.short_code = c := rowsFor_single_code hrc
          have h1y : some ((bump c2 t y).clicks) = some m1 := h1
          by_cases hcb : (c2 == c) = true
          · have hceq : c2 = c := eq_of_beq hcb
            have hby : bump c2 t y = { y with clicks := y.clicks + 1, last_clicked_at := some t } := by
              rw [hceq]
              exact bump_eq_of_code hycode
            have hm1 : m1 = y.clicks + 1 := by
              rw [hby] at h1y
              exact (Option.some.inj h1y).symm
            have hob : opBumps db (Op.redirectOp c2 t) c = true := by
              show (c2 == c && !reservedPaths.contains (lowerStr c2) && !(rowsFor db c2).isEmpty) = true
              rw [hcb, hres2, hr]
              rfl
            rw [hm1, hob]
            exact ⟨Nat.le_succ _, rfl⟩
          · have hby : bump c2 t y = y := by
              unfold bump
              rw [if_neg]
              rw [hycode]
              intro he
              exact hcb (by rw [← eq_of_beq he]; exact beq_self_eq_true c)
            have hm1 : m1 = y.clicks := by
              rw [hby] at h1y
              exact (Option.some.inj h1y).symm
            have hob : opBumps db (Op.redirectOp c2 t) c = false := by
              show (c2 == c && !reservedPaths.contains (lowerStr c2) && !(rowsFor db c2).isEmpty) = false
              rw [contains_eq_false_of_ne_true hcb]
              rfl
            rw [hm1, hob]
            exact ⟨Nat.le_refl _, rfl⟩

/-- C7 witness: a store with one link and a redirect operation on it. -/
theorem c7_invariants_witness :
    (codes (applyOp [newLink "abc123" "http://x.com" 0] (Op.redirectOp "abc123" 3))).Nodup ∧
    ∀ c m0 m1, clicksOf [newLink "abc123" "http://x.com" 0] c = some m0 →
      clicksOf (applyOp [newLink "abc123" "http://x.com" 0] (Op.redirectOp "abc123" 3)) c =
        some m1 →
      m0 ≤ m1 ∧
        m1 = (if opBumps [newLink "abc123" "http://x.com" 0] (Op.redirectOp "abc123" 3) c
          then m0 + 1 else m0) :=
  c7_invariants [newLink "abc123" "http://x.com" 0] (Op.redirectOp "abc123" 3) (by decide)

/-- C1 counterexample: the code `healthz` can be stored (it passes the
6-8 alphanumeric custom-code rule) but the redirect handler intercepts
it as a reserved path: one redirect call does not return the stored
destination and leaves clicks at 0 instead of 1. -/
theorem c1_counterexample :
    ¬ ((redirectSeq [newLink "healthz" "http://x.com" 0] "healthz" [5]).1 =
          [RedirectResult.redirected "http://x.com"] ∧
        getLink (redirectSeq [newLink "healthz" "http://x.com" 0] "healthz" [5]).2 "healthz" =
          .found (rowOfLink { newLink "healthz" "http://x.com" 0 with
                              clicks := 1, last_clicked_at := some 5 })) := by
  decide

/-- C1 (amended to non-reserved codes): for a code present in the store
(uniquely, with clicks starting at 0) whose lowercase form is not a
reserved path, n sequential redirect calls each return a 302 to the
stored destination, and a following GetLink reports clicks = n and
lastClickedAt equal to the time of the last call. -/
theorem c1_sequential_clicks (db : Db) (l : Link) (c : String) (ts0 : List Nat) (tn : Nat)
    (hres : reservedPaths.contains (lowerStr c) = false)
    (hrow : rowsFor db c = [l]) (hclicks : l.clicks = 0) :
    (redirectSeq db c (ts0 ++ [tn])).1 =
      List.replicate (ts0 ++ [tn]).length (RedirectResult.redirected l.original_url) ∧
    getLink (redirectSeq db c (ts0 ++ [tn])).2 c =
      .found (rowOfLink { l with clicks := (ts0 ++ [tn]).length,
                                 last_clicked_at := some tn }) := by
  obtain ⟨h1, h2⟩ := redirectSeq_ok hres (ts0 ++ [tn]) db l hrow
  refine ⟨h1, ?_⟩
  rw [lastOr_concat, hclicks] at h2
  rw [show 0 + (ts0 ++ [tn]).length = (ts0 ++ [tn]).length from Nat.zero_add _] at h2
  unfold getLink
  rw [h2]

/-- C1 witness: two sequential redirects on a one-link store. -/
theorem c1_sequential_clicks_witness :
    (redirectSeq [newLink "abc123" "http://x.com" 0] "abc123" ([4] ++ [9])).1 =
      List.replicate (([4] ++ [9] : List Nat)).length (RedirectResult.redirected "http://x.com") ∧
    getLink (redirectSeq [newLink "abc123" "http://x.com" 0] "abc123" ([4] ++ [9])).2 "abc123" =
      .found (rowOfLink { newLink "abc123" "http://x.com" 0 with
                          clicks := (([4] ++ [9] : List Nat)).length,
                          last_clicked_at := some 9 }) :=
  c1_sequential_clicks [newLink "abc123" "http://x.com" 0] (newLink "abc123" "http://x.com" 0)
    "abc123" [4] 9 (by decide) (by decide) rfl

/-- C2 counterexample: a successful create does not return the full
Link record: the 201 response row (from the RETURNING list) has no
last_clicked_at column at all, in particular not a null one. -/
theorem c2_counterexample :
    ¬ ∃ row, (createLink [] "http://x.com" none cRnd 0).1 = CreateResult.created row ∧
        List.lookup "last_clicked_at" row = some JVal.jnull := by
  rintro ⟨row, hr, hl⟩
  have he : (createLink [] "http://x.com" none cRnd 0).1 =
      CreateResult.created (rowOfCreate (newLink "AAAAAA" "http://x.com" 0)) := by decide
  rw [he] at hr
  obtain rfl := (CreateResult.created.injEq _ _).mp hr
  exact absurd hl (by decide)

/-- C2 (amended): for every valid destination URL and every code not
already in the store, a successful CreateLink — with a custom code that
passes the validator, or with no custom code and a freshly generated
one — returns a 201 row holding the code, the destination, clicks = 0
and createdAt, but no lastClickedAt column (the RETURNING list omits
it); the stored link itself has clicks = 0 and lastClickedAt = null, as
the subsequent GetLink row reports; and when no custom code is supplied
the returned code satisfies the 6-8 alphanumeric validator. -/
theorem c2_create_returns :
    (∀ (db : Db) (url c : String) (r : Rnd) (now : Nat),
        isURL url = true → validCode c = true → rowsFor db c = [] →
        createLink db url (some c) r now =
          (.created (rowOfCreate (newLink c url now)), db ++ [newLink c url now])) ∧
    (∀ (db : Db) (url : String) (r : Rnd) (now : Nat),
        isURL url = true → rowsFor db (generateShortCode r) = [] →
        createLink db url none r now =
          (.created (rowOfCreate (newLink (generateShortCode r) url now)),
            db ++ [newLink (generateShortCode r) url now]) ∧
        validCode (generateShortCode r) = true) ∧
    (∀ (c url : String) (now : Nat),
        List.lookup "short_code" (rowOfCreate (newLink c url now)) = some (.jstr c) ∧
        List.lookup "original_url" (rowOfCreate (newLink c url now)) = some (.jstr url) ∧
        List.lookup "clicks" (rowOfCreate (newLink c url now)) = some (.jnum 0) ∧
        List.lookup "created_at" (rowOfCreate (newLink c url now)) = some (.jnum now) ∧
        List.lookup "last_clicked_at" (rowOfCreate (newLink c url now)) = none ∧
        (newLink c url now).clicks = 0 ∧ (newLink c url now).last_clicked_at = none) ∧
    (∀ (db : Db) (c url : String) (now : Nat), rowsFor db c = [] →
        getLink (db ++ [newLink c url now]) c = .found (rowOfLink (newLink c url now)) ∧
        List.lookup "clicks" (rowOfLink (newLink c url now)) = some (.jnum 0) ∧
        List.lookup "last_clicked_at" (rowOfLink (newLink c url now)) = some .jnull) := by
  refine ⟨?_, ?_, ?_, ?_⟩
  · intro db url c r now hurl hc hfresh
    rw [createLink_custom hurl hc, insertLink_fresh hfresh]
  · intro db url r now hurl hfresh
    refine ⟨?_, validCode_generateShortCode r⟩
    rw [createLink_gen hurl, insertLink_fresh hfresh]
  · intro c url now
    exact ⟨rfl, rfl, rfl, rfl, rfl, rfl, rfl⟩
  · intro db c url now hfresh
    have hsingle : rowsFor [newLink c url now] c = [newLink c url now] := by
      show List.filter _ _ = _
      rw [List.filter_cons,
        if_pos (show ((newLink c url now).short_code == c) = true from beq_self_eq_true c)]
      rfl
    refine ⟨?_, rfl, rfl⟩
    unfold getLink
    rw [rowsFor_append, hfresh, hsingle]
    rfl

/-- C2 witness: a custom-code create and a generated create on the
empty store with a valid URL, plus the row contents of both. -/
theorem c2_create_returns_witness :
    createLink [] "http://x.com" (some "mycode1") cRnd 0 =
      (.created (rowOfCreate (newLink "mycode1" "http://x.com" 0)),
        [] ++ [newLink "mycode1" "http://x.com" 0]) ∧
    (createLink [] "http://x.com" none cRnd 0 =
      (.created (rowOfCreate (newLink (generateShortCode cRnd) "http://x.com" 0)),
        [] ++ [newLink (generateShortCode cRnd) "http://x.com" 0]) ∧
      validCode (generateShortCode cRnd) = true) ∧
    (List.lookup "short_code" (rowOfCreate (newLink "mycode1" "http://x.com" 0)) =
        some (.jstr "mycode1") ∧
      List.lookup "original_url" (rowOfCreate (newLink "mycode1" "http://x.com" 0)) =
        some (.jstr "http://x.com") ∧
      List.lookup "clicks" (rowOfCreate (newLink "mycode1" "http://x.com" 0)) =
        some (.jnum 0) ∧
      List.lookup "created_at" (rowOfCreate (newLink "mycode1" "http://x.com" 0)) =
        some (.jnum 0) ∧
      List.lookup "last_clicked_at" (rowOfCreate (newLink "mycode1" "http://x.com" 0)) =
        none ∧
      (newLink "mycode1" "http://x.com" 0).clicks = 0 ∧
      (newLink "mycode1" "http://x.com" 0).last_clicked_at = none) ∧
    (getLink ([] ++ [newLink "mycode1" "http://x.com" 0]) "mycode1" =
        .found (rowOfLink (newLink "mycode1" "http://x.com" 0)) ∧
      List.lookup "clicks" (rowOfLink (newLink "mycode1" "http://x.com" 0)) =
        some (.jnum 0) ∧
      List.lookup "last_clicked_at" (rowOfLink (newLink "mycode1" "http://x.com" 0)) =
        some .jnull) :=
  ⟨c2_create_returns.1 [] "http://x.com" "mycode1" cRnd 0 (by decide) (by decide) (by decide),
   c2_create_returns.2.1 [] "http://x.com" cRnd 0 (by decide) (by decide),
   c2_create_returns.2.2.1 "mycode1" "http://x.com" 0,
   c2_create_returns.2.2.2 [] "mycode1" "http://x.com" 0 (by decide)⟩

/-- C3: a successful create with a custom code followed by a second
create with the same code makes the second call fail with 409 Conflict
and leaves the store, including the created link, unchanged. -/
theorem c3_duplicate_conflict (db db1 : Db) (url url2 c : String) (row : Row)
    (r r2 : Rnd) (now now2 : Nat)
    (hc : c ≠ "") (hurl2 : isURL url2 = true)
    (h1 : createLink db url (some c) r now = (.created row, db1)) :
    createLink db1 url2 (some c) r2 now2 = (.conflict, db1) := by
  unfold createLink at h1
  simp only [Option.getD_some] at h1
  by_cases hu0 : url = ""
  · rw [if_pos hu0] at h1
    exact absurd (congrArg Prod.fst h1) (by simp)
  rw [if_neg hu0] at h1
  by_cases hu1 : isURL url = false
  · rw [if_pos hu1] at h1
    exact absurd (congrArg Prod.fst h1) (by simp)
  rw [if_neg hu1, if_neg hc] at h1
  by_cases hv : validCode c = false
  · rw [if_pos hv] at h1
    exact absurd (congrArg Prod.fst h1) (by simp)
  rw [if_neg hv] at h1
  have hvc : validCode c = true := by
    cases hcv : validCode c with
    | true => rfl
    | false => exact absurd hcv hv
  unfold insertLink at h1
  by_cases hex : rowsFor db c = []
  · rw [if_pos hex] at h1
    have hdb1 : db1 = db ++ [newLink c url now] := (congrArg Prod.snd h1).symm
    rw [createLink_custom hurl2 hvc]
    apply insertLink_conflict
    rw [hdb1, rowsFor_append]
    intro hnil
    have hsingle : rowsFor [newLink c url now] c = [newLink c url now] := by
      show List.filter _ _ = _
      rw [List.filter_cons,
        if_pos (show ((newLink c url now).short_code == c) = true from beq_self_eq_true c)]
      rfl
    rw [hsingle] at hnil
    exact absurd hnil (by simp)
  · rw [if_neg hex] at h1
    exact absurd (congrArg Prod.fst h1) (by simp)

/-- C3 witness: creating `mycode1` twice in a row. -/
theorem c3_duplicate_conflict_witness :
    createLink [newLink "mycode1" "http://x.com" 0] "http://y.com" (some "mycode1") cRnd 1 =
      (CreateResult.conflict, [newLink "mycode1" "http://x.com" 0]) :=
  c3_duplicate_conflict [] [newLink "mycode1" "http://x.com" 0] "http://x.com" "http://y.com"
    "mycode1" (rowOfCreate (newLink "mycode1" "http://x.com" 0)) cRnd cRnd 0 1
    (by decide) (by decide) (by decide)

/-- C4 counterexample: `public` is an existing code (storable, since it
passes the custom-code rule), yet a single redirect call — the k = 1
instance of k concurrent calls — leaves its clicks at 0 instead of
increasing them by 1, because the handler intercepts reserved paths. -/
theorem c4_counterexample :
    (redirectLink [newLink "public" "http://x.com" 0] "public" 5).2 =
      [newLink "public" "http://x.com" 0] ∧
    rowsFor (redirectLink [newLink "public" "http://x.com" 0] "public" 5).2 "public" ≠
      [{ newLink "public" "http://x.com" 0 with clicks := 1, last_clicked_at := some 5 }] := by
  decide

/-- C4 (amended to non-reserved codes): for an existing non-reserved
code, any interleaving of the statements of k concurrent redirect calls
(each one SELECT followed by one single-statement atomic UPDATE)
increases that code's clicks by exactly k — no lost and no
double-counted updates; and one redirect call on such a code performs
exactly those two statements and returns the stored destination. -/
theorem c4_concurrent_increment (db : Db) (l : Link) (c : String) (times : List Nat)
    (sched : List DbAct)
    (hres : reservedPaths.contains (lowerStr c) = false)
    (hrow : rowsFor db c = [l])
    (hsched : sched.Perm ((times.map (redirectCallActs c)).flatten)) :
    (∃ last2, rowsFor (execActs db sched) c =
        [{ l with clicks := l.clicks + times.length, last_clicked_at := last2 }]) ∧
    ∀ t, redirectLink db c t = (.redirected l.original_url, execActs db (redirectCallActs c t)) := by
  constructor
  · obtain ⟨last2, h⟩ := execActs_clicks c sched db l hrow
    refine ⟨last2, ?_⟩
    rw [h]
    rw [show sched.countP (isUpdOn c) = times.length from
      (List.Perm.countP_eq (isUpdOn c) hsched).trans (countP_upd_join c times)]
  · intro t
    rw [redirectLink_ok t hres hrow]
    rfl

/-- C4 witness: two concurrent redirect calls, SELECTs first, then both
UPDATEs. -/
theorem c4_concurrent_increment_witness :
    (∃ last2, rowsFor (execActs [newLink "abc123" "http://x.com" 0]
        [DbAct.sel "abc123", DbAct.sel "abc123",
         DbAct.upd "abc123" 4, DbAct.upd "abc123" 9]) "abc123" =
        [{ newLink "abc123" "http://x.com" 0 with clicks := 2, last_clicked_at := last2 }]) ∧
    ∀ t, redirectLink [newLink "abc123" "http://x.com" 0] "abc123" t =
      (.redirected "http://x.com",
        execActs [newLink "abc123" "http://x.com" 0] (redirectCallActs "abc123" t)) :=
  c4_concurrent_increment [newLink "abc123" "http://x.com" 0]
    (newLink "abc123" "http://x.com" 0) "abc123" [4, 9]
    [DbAct.sel "abc123", DbAct.sel "abc123", DbAct.upd "abc123" 4, DbAct.upd "abc123" 9]
    (by decide) (by decide) (by decide)

/-- C5: create fails with 400 whenever the destination is rejected by
the URL validator (checked first) or a nonempty custom code fails the
6-8 alphanumeric rule; in particular for the three concrete inputs of
the spec, on any store. -/
theorem c5_invalid_input :
    (∀ (db : Db) (url : String) (ccode : Option String) (r : Rnd) (now : Nat),
        isURL url = false → (createLink db url ccode r now).1 = .invalidUrl) ∧
    (∀ (db : Db) (url s : String) (r : Rnd) (now : Nat),
        isURL url = true → s ≠ "" → validCode s = false →
        (createLink db url (some s) r now).1 = .invalidCode) ∧
    (∀ (db : Db) (ccode : Option String) (r : Rnd) (now : Nat),
        (createLink db "not-a-url" ccode r now).1 = .invalidUrl) ∧
    (∀ (db : Db) (r : Rnd) (now : Nat),
        (createLink db "http://x.com" (some "ab") r now).1 = .invalidCode) ∧
    (∀ (db : Db) (r : Rnd) (now : Nat),
        (createLink db "http://x.com" (some "abc123!!") r now).1 = .invalidCode) := by
  refine ⟨?_, ?_, ?_, ?_, ?_⟩
  · intro db url ccode r now h
    unfold createLink
    by_cases hu : url = ""
    · rw [if_pos hu]
    · rw [if_neg hu, if_pos h]
  · intro db url s r now hurl hs hv
    have hne : url ≠ "" := by
      intro he
      rw [he, isURL_empty] at hurl
      exact Bool.noConfusion hurl
    unfold createLink
    rw [if_neg hne, if_neg (by simp [hurl]),
      if_neg (show ¬((some s).getD "" = "") from hs),
      if_pos (show validCode ((some s).getD "") = false from hv)]
  · intro db ccode r now
    unfold createLink
    rw [if_neg (by decide : ¬("not-a-url" = "")),
      if_pos (by decide : isURL "not-a-url" = false)]
  · intro db r now
    unfold createLink
    rw [if_neg (by decide : ¬("http://x.com" = "")),
      if_neg (by decide : ¬(isURL "http://x.com" = false)),
      if_neg (by decide : ¬((some "ab").getD "" = "")),
      if_pos (by decide : validCode ((some "ab").getD "") = false)]
  · intro db r now
    unfold createLink
    rw [if_neg (by decide : ¬("http://x.com" = "")),
      if_neg (by decide : ¬(isURL "http://x.com" = false)),
      if_neg (by decide : ¬((some "abc123!!").getD "" = "")),
      if_pos (by decide : validCode ((some "abc123!!").getD "") = false)]

/-- C5 witness: the three concrete invalid inputs on the empty store. -/
theorem c5_invalid_input_witness :
    (createLink [] "not-a-url" none cRnd 0).1 = CreateResult.invalidUrl ∧
    (createLink [] "http://x.com" (some "ab") cRnd 0).1 = CreateResult.invalidCode ∧
    (createLink [] "http://x.com" (some "abc123!!") cRnd 0).1 = CreateResult.invalidCode :=
  ⟨c5_invalid_input.1 [] "not-a-url" none cRnd 0 (by decide),
   c5_invalid_input.2.1 [] "http://x.com" "ab" cRnd 0 (by decide) (by decide) (by decide),
   c5_invalid_input.2.1 [] "http://x.com" "abc123!!" cRnd 0 (by decide) (by decide) (by decide)⟩

/-- C6: every code the generator can produce has length 6, 7 or 8,
draws every character from the 62-character alphanumeric alphabet, and
hence always satisfies the validator. -/
theorem c6_generate_valid (r : Rnd) :
    6 ≤ (generateShortCode r).length ∧ (generateShortCode r).length ≤ 8 ∧
    (∀ ch ∈ (generateShortCode r).toList, ch ∈ alph) ∧
    validCode (generateShortCode r) = true := by
  have h3 := r.lenR.isLt
  refine ⟨?_, ?_, ?_, validCode_generateShortCode r⟩
  · rw [generateShortCode_length]
    omega
  · rw [generateShortCode_length]
    omega
  · intro ch hch
    rw [generateShortCode_toList] at hch
    rcases List.mem_map.mp hch with ⟨i, _, rfl⟩
    exact alphChar_mem _

/-- C8 counterexample: the sample row `docs` from schema.sql is an
existing code; both deletes behave as claimed, but a subsequent create
supplying `docs` fails with 400 (it breaks the 6-8 rule), not success. -/
theorem c8_counterexample :
    deleteLink [docsLink] "docs" = (DeleteResult.deleted, ([] : Db)) ∧
    deleteLink ([] : Db) "docs" = (DeleteResult.notFound, ([] : Db)) ∧
    (∀ row : Row, (createLink ([] : Db) "http://x.com" (some "docs") cRnd 1).1 ≠
        CreateResult.created row) ∧
    (createLink ([] : Db) "http://x.com" (some "docs") cRnd 1).1 =
      CreateResult.invalidCode := by
  refine ⟨by decide, by decide, ?_, by decide⟩
  intro row h
  have he : (createLink ([] : Db) "http://x.com" (some "docs") cRnd 1).1 =
      CreateResult.invalidCode := by decide
  rw [he] at h
  exact CreateResult.noConfusion h

/-- C8 (amended to codes that satisfy the validator): deleting an
existing code succeeds and removes its rows; a second delete fails with
404; a create supplying the same (6-8 alphanumeric) code with a valid
URL then succeeds. -/
theorem c8_delete_create (db : Db) (l : Link) (c url : String) (r : Rnd) (now : Nat)
    (hrow : rowsFor db c = [l]) (hc : validCode c = true) (hurl : isURL url = true) :
    deleteLink db c = (.deleted, db.filter (fun x => x.short_code != c)) ∧
    deleteLink (deleteLink db c).2 c = (.notFound, (deleteLink db c).2) ∧
    createLink (deleteLink db c).2 url (some c) r now =
      (.created (rowOfCreate (newLink c url now)),
        (deleteLink db c).2 ++ [newLink c url now]) := by
  have hne : rowsFor db c ≠ [] := by
    rw [hrow]
    exact List.cons_ne_nil _ _
  have hd : deleteLink db c = (.deleted, db.filter (fun x => x.short_code != c)) := by
    unfold deleteLink
    rw [if_neg hne]
  refine ⟨hd, ?_, ?_⟩
  · rw [hd]
    show deleteLink (db.filter (fun x => x.short_code != c)) c =
      (.notFound, db.filter (fun x => x.short_code != c))
    unfold deleteLink
    rw [if_pos (rowsFor_erase_self db c)]
  · rw [hd]
    show createLink (db.filter (fun x => x.short_code != c)) url (some c) r now =
      (.created (rowOfCreate (newLink c url now)),
        db.filter (fun x => x.short_code != c) ++ [newLink c url now])
    rw [createLink_custom hurl hc, insertLink_fresh (rowsFor_erase_self db c)]

/-- C8 witness: delete and re-create the sample code `google`. -/
theorem c8_delete_create_witness :
    deleteLink [newLink "google" "https://google.com" 0] "google" =
      (.deleted, ([newLink "google" "https://google.com" 0] : Db).filter
        (fun x => x.short_code != "google")) ∧
    deleteLink (deleteLink [newLink "google" "https://google.com" 0] "google").2 "google" =
      (.notFound, (deleteLink [newLink "google" "https://google.com" 0] "google").2) ∧
    createLink (deleteLink [newLink "google" "https://google.com" 0] "google").2
        "http://x.com" (some "google") cRnd 1 =
      (.created (rowOfCreate (newLink "google" "http://x.com" 1)),
        (deleteLink [newLink "google" "https://google.com" 0] "google").2 ++
          [newLink "google" "http://x.com" 1]) :=
  c8_delete_create [newLink "google" "https://google.com" 0]
    (newLink "google" "https://google.com" 0) "google" "http://x.com" cRnd 1
    (by decide) (by decide) (by decide)

/-- C9: the list endpoint always succeeds (it is a total function, and
the empty store yields the empty row list) and returns exactly the live
links — a permutation of the table — ordered by creation time
descending, newest first. -/
theorem c9_list_sorted (db : Db) :
    listLinks db = (listLinksSorted db).map rowOfLink ∧
    List.Perm (listLinksSorted db) db ∧
    List.Sorted createdDesc (listLinksSorted db) ∧
    listLinks ([] : Db) = [] :=
  ⟨rfl, List.perm_insertionSort _ _, List.sorted_insertionSort _ _, rfl⟩

/-- C10: an empty-string custom code is falsy in JavaScript, so the
create handler treats it exactly like an absent custom code: the call
is literally equal to the no-custom-code call, a fresh 6-8 alphanumeric
code is generated, and (when that code is unused) the call succeeds
instead of failing the 6-to-8-character rule. -/
theorem c10_empty_custom (db : Db) (url : String) (r : Rnd) (now : Nat)
    (hurl : isURL url = true)
    (hfresh : rowsFor db (generateShortCode r) = []) :
    createLink db url (some "") r now = createLink db url none r now ∧
    createLink db url (some "") r now =
      (.created (rowOfCreate (newLink (generateShortCode r) url now)),
        db ++ [newLink (generateShortCode r) url now]) ∧
    validCode (generateShortCode r) = true := by
  refine ⟨rfl, ?_, validCode_generateShortCode r⟩
  show createLink db url none r now = _
  rw [createLink_gen hurl, insertLink_fresh hfresh]

/-- C10 witness: empty-string custom code on the empty store. -/
theorem c10_empty_custom_witness :
    createLink [] "http://x.com" (some "") cRnd 0 =
      createLink [] "http://x.com" none cRnd 0 ∧
    createLink [] "http://x.com" (some "") cRnd 0 =
      (.created (rowOfCreate (newLink (generateShortCode cRnd) "http://x.com" 0)),
        [] ++ [newLink (generateShortCode cRnd) "http://x.com" 0]) ∧
    validCode (generateShortCode cRnd) = true :=
  c10_empty_custom [] "http://x.com" cRnd 0 (by decide) (by decide)

end TinyLink
